import Mathlib

/-!
# Verification of the coffee24 admin server

A shallow embedding of the coffee24 ingredient-tracking server
(`src/server.js` together with the Mongoose models in `src/models/`),
with theorems checking the natural-language specification against it.

Modelling conventions:

* JavaScript runtime values that flow through the handlers are modelled by
  `JSVal`; JavaScript numbers are modelled as exact decimal fixed-point
  numbers (`DecNum`, a mantissa over a power of ten in canonical form)
  plus an explicit `nan` marker.  Every number the server manipulates is
  an operator-entered decimal, on which this model agrees with IEEE
  doubles for parsing, addition and printing at the magnitudes involved.
* The persistence store (MongoDB via Mongoose) is the external collaborator
  of the spec: it is modelled as in-memory lists of documents that keep the
  fields the handlers assign.  Document fields that `src/server.js` reads
  and writes but the schema file omits (`isSelected`, `predefinedQuantity`,
  `currentQuantity`) are modelled from the spec data model, which lists
  them as Machine fields.
* Handlers are pure functions from server state and request data to a new
  state paired with a response.  Lean totality of these functions is the
  never-throws part of the embedding; a caught exception branch is
  translated as the response the catch block produces.
-/

namespace Coffee24

/-! ## Decimal numbers

`DecNum` represents `mant / 10 ^ exp` with the invariant that the
representation is canonical (`exp` is zero or the mantissa is not
divisible by ten), so that structural equality is numeric equality. -/

/-- `10 ^ n` over the integers, by structural recursion. -/
def pow10 : ℕ → ℤ
  | 0 => 1
  | n + 1 => 10 * pow10 n

/-- `10 ^ n` over the naturals, by structural recursion. -/
def pow10Nat : ℕ → ℕ
  | 0 => 1
  | n + 1 => 10 * pow10Nat n

/-- Strip factors of ten out of `m` while the exponent budget `e` lasts. -/
def stripZeros : ℤ → ℕ → ℤ × ℕ
  | m, 0 => (m, 0)
  | m, e + 1 => if m % 10 = 0 then stripZeros (m / 10) e else (m, e + 1)

theorem stripZeros_canon (e : ℕ) : ∀ m : ℤ,
    (stripZeros m e).2 = 0 ∨ ¬ ((10 : ℤ) ∣ (stripZeros m e).1) := by
  induction e with
  | zero => intro m; exact Or.inl rfl
  | succ e ih =>
      intro m
      by_cases h : m % 10 = 0
      · simpa [stripZeros, h] using ih (m / 10)
      · right
        simp only [stripZeros, h, if_false]
        rw [Int.dvd_iff_emod_eq_zero]
        exact h

/-- Exact decimal numbers `mant / 10 ^ exp` in canonical form. -/
structure DecNum where
  mant : ℤ
  exp : ℕ
  canon : exp = 0 ∨ ¬ ((10 : ℤ) ∣ mant)

instance : DecidableEq DecNum := fun a b =>
  if h : a.mant = b.mant ∧ a.exp = b.exp then
    isTrue (by
      obtain ⟨m, e, c⟩ := a
      obtain ⟨m2, e2, c2⟩ := b
      obtain ⟨h1, h2⟩ := h
      dsimp only at h1 h2
      subst h1; subst h2; rfl)
  else
    isFalse (fun he => h (by cases he; exact ⟨rfl, rfl⟩))

/-- Build the canonical decimal for `m / 10 ^ e`. -/
def mkDec (m : ℤ) (e : ℕ) : DecNum :=
  ⟨(stripZeros m e).1, (stripZeros m e).2, stripZeros_canon e m⟩

/-- An integer as a decimal number (already canonical). -/
def decInt (n : ℤ) : DecNum := ⟨n, 0, Or.inl rfl⟩

/-- Negation of a decimal number. -/
def DecNum.neg (a : DecNum) : DecNum :=
  ⟨-a.mant, a.exp, by
    rcases a.canon with h | h
    · exact Or.inl h
    · exact Or.inr (fun hd => h (Int.dvd_neg.mp hd))⟩

/-- Addition of decimal numbers (align exponents, add mantissas,
renormalize); this is exact JS addition on decimal inputs. -/
def DecNum.add (a b : DecNum) : DecNum :=
  mkDec (a.mant * pow10 (max a.exp b.exp - a.exp)
          + b.mant * pow10 (max a.exp b.exp - b.exp))
    (max a.exp b.exp)

/-- A decimal whose mantissa is zero is the canonical zero. -/
theorem DecNum.eq_zero_of_mant (a : DecNum) (h : a.mant = 0) : a = decInt 0 := by
  obtain ⟨m, e, c⟩ := a
  dsimp only at h
  subst h
  rcases c with he | hd
  · subst he; rfl
  · exact absurd ⟨0, by ring⟩ hd

/-! ## JavaScript value model -/

/-- JavaScript values reaching the numeric code paths of the server.
Finite numbers are canonical decimals; `nan` is kept separate. -/
inductive JSVal where
  | num (q : DecNum)
  | nan
  | str (s : String)
  | undefinedV
  | nullv
  | boolean (b : Bool)
  deriving DecidableEq

/-- JavaScript truthiness for `JSVal` (`NaN`, `0`, the empty string,
`undefined`, `null` and `false` are falsy). -/
def truthy : JSVal → Bool
  | .num q => q.mant != 0
  | .nan => false
  | .str s => s != ""
  | .undefinedV => false
  | .nullv => false
  | .boolean b => b

/-- JavaScript `a || b`. -/
def jsOr (a b : JSVal) : JSVal :=
  if truthy a then a else b

/-- Numeric value of a digit string (characters assumed to be digits). -/
def digitsToNat (l : List Char) : ℕ :=
  l.foldl (fun a c => a * 10 + (c.toNat - 48)) 0

/-- The decimal denoted by integer-part and fraction-part digit lists. -/
def decOfDigits (ip fp : List Char) : DecNum :=
  mkDec ((digitsToNat ip : ℤ) * pow10 fp.length + (digitsToNat fp : ℤ)) fp.length

/-- Parse an unsigned decimal literal (`123`, `123.45`, `.45`, `123.`);
the whole input must be consumed.  Exponents and hex are not modelled;
they do not occur in any claim. -/
def parseDecChars (l : List Char) : Option DecNum :=
  match l.span (fun c => c != '.') with
  | (ip, []) =>
      if ip != [] && ip.all Char.isDigit then some (decInt (digitsToNat ip)) else none
  | (ip, _ :: fp) =>
      if (ip != [] || fp != []) && ip.all Char.isDigit && fp.all Char.isDigit
          && fp.all (fun c => c != '.') then
        some (decOfDigits ip fp)
      else none

/-- Parse an optionally signed decimal literal consuming the whole input. -/
def parseSignedChars (l : List Char) : Option DecNum :=
  match l with
  | '-' :: rest => (parseDecChars rest).map DecNum.neg
  | '+' :: rest => parseDecChars rest
  | _ => parseDecChars l

/-- Strip leading and trailing whitespace from a character list. -/
def trimChars (l : List Char) : List Char :=
  ((l.dropWhile Char.isWhitespace).reverse.dropWhile Char.isWhitespace).reverse

/-- JavaScript `String.prototype.trim` (ASCII whitespace). -/
def jsTrim (s : String) : String :=
  String.mk (trimChars s.data)

/-- JavaScript `Number(...)` on a string: trimmed empty string is `0`,
otherwise a full decimal parse, otherwise `NaN`. -/
def jsStringToNumber (s : String) : JSVal :=
  let t := jsTrim s
  if t = "" then .num (decInt 0)
  else
    match parseSignedChars t.data with
    | some q => .num q
    | none => .nan

/-- JavaScript `Number(...)` (the ToNumber coercion) on `JSVal`. -/
def jsToNumber : JSVal → JSVal
  | .num q => .num q
  | .nan => .nan
  | .str s => jsStringToNumber s
  | .undefinedV => .nan
  | .nullv => .num (decInt 0)
  | .boolean b => .num (decInt (if b then 1 else 0))

/-- JavaScript `a + b` in the numeric case (both operands coerced with
ToNumber; `NaN` is absorbing).  In the aggregator both operands are
always numbers, which this models exactly. -/
def jsAddNum (a b : JSVal) : JSVal :=
  match jsToNumber a, jsToNumber b with
  | .num x, .num y => .num (x.add y)
  | _, _ => .nan

/-- JavaScript `parseFloat` on a string body: skip leading whitespace,
then take the longest signed decimal prefix; `NaN` when no digits. -/
def parseFloatChars (l : List Char) : Option DecNum :=
  let sl : Bool × List Char :=
    match l with
    | '-' :: rest => (true, rest)
    | '+' :: rest => (false, rest)
    | _ => (false, l)
  let ipRest := sl.2.span Char.isDigit
  let fp : List Char :=
    match ipRest.2 with
    | '.' :: rest => (rest.span Char.isDigit).1
    | _ => []
  if ipRest.1.isEmpty && fp.isEmpty then none
  else
    some (if sl.1 then (decOfDigits ipRest.1 fp).neg else decOfDigits ipRest.1 fp)

/-- JavaScript `parseFloat(...)` on `JSVal` (non-string arguments are
stringified first; for finite decimals that round-trips, which is what
this models). -/
def jsParseFloat : JSVal → JSVal
  | .str s =>
      match parseFloatChars (s.data.dropWhile Char.isWhitespace) with
      | some q => .num q
      | none => .nan
  | .num q => .num q
  | .nan => .nan
  | .undefinedV => .nan
  | .nullv => .nan
  | .boolean _ => .nan

/-! ## Data model

`Ingredient` carries every field some handler assigns: the schema file
declares `name` and `quantity`; the `/machine/new` and `/machine/:id/save`
handlers additionally write `predefinedQuantity` and `currentQuantity`.
A field a handler does not set is `undefinedV`, as in a JS object literal. -/

structure Ingredient where
  name : String
  quantity : JSVal := .undefinedV
  predefinedQuantity : JSVal := .undefinedV
  currentQuantity : JSVal := .undefinedV
  deriving DecidableEq

structure Machine where
  id : String
  code : String
  model : String
  location : String
  isSelected : Bool := false
  ingredients : List Ingredient
  deriving DecidableEq

/-- A daily totals snapshot (`src/models/Record.js`): `date` is unique,
`totals` is a schemaless mapping, modelled as an association list in
JS-object insertion order. -/
structure Record where
  date : String
  totals : List (String × JSVal)
  deriving DecidableEq

abbrev TotalsMap := List (String × JSVal)

structure ServerState where
  machines : List Machine
  records : List Record
  deriving DecidableEq

/-! ## JS object operations for the totals mapping -/

/-- `totals[k]` : the stored value, or `undefined` when the key is absent. -/
def lookupTot (t : TotalsMap) (k : String) : JSVal :=
  match t.find? (fun p => p.1 == k) with
  | some p => p.2
  | none => .undefinedV

/-- `totals[k] = v` : update in place when the key exists (JS objects keep
first-insertion key order), otherwise append. -/
def setTot (t : TotalsMap) (k : String) (v : JSVal) : TotalsMap :=
  if t.any (fun p => p.1 == k) then
    t.map (fun p => if p.1 == k then (k, v) else p)
  else t ++ [(k, v)]

/-! ## Totals aggregation

`src/server.js` lines 315-319 (`GET /totals`) and lines 372-376
(`POST /save-report`, step 2) both run, per ingredient of each machine:

  `totals[ing.name] = (totals[ing.name] || 0) + Number(ing.quantity || 0);`
-/

/-- One ingredient entry folded into the running totals. -/
def totalsStep (totals : TotalsMap) (ing : Ingredient) : TotalsMap :=
  setTot totals ing.name
    (jsAddNum (jsOr (lookupTot totals ing.name) (.num (decInt 0)))
      (jsToNumber (jsOr ing.quantity (.num (decInt 0)))))

/-- The totals loop of the `GET /totals` handler (lines 314-319). -/
def totalsAggGet (selectedMachines : List Machine) : TotalsMap :=
  selectedMachines.foldl (fun totals m => m.ingredients.foldl totalsStep totals) []

/-- The totals loop of step 2 of the `POST /save-report` handler
(lines 371-376). -/
def totalsAggSave (machines : List Machine) : TotalsMap :=
  machines.foldl (fun totals m => m.ingredients.foldl totalsStep totals) []

/-! ## Responses -/

/-- The JSON bodies the modelled routes produce. -/
inductive JsonBody where
  | totals (t : TotalsMap)
  | toggleResult (success : Bool) (isSelected : Option Bool)
  deriving DecidableEq

/-- HTTP responses of the modelled routes. -/
inductive HResponse where
  | redirect (loc : String)
  | json (status : ℕ) (body : JsonBody)
  | htmlError (status : ℕ) (msg : String)
  deriving DecidableEq

/-! ## Persistence operations (Mongoose calls used by the handlers) -/

/-- `Machine.findById(id)`. -/
def findMachine (machines : List Machine) (id : String) : Option Machine :=
  machines.find? (fun m => m.id == id)

/-- `machine.save()` : persist the (possibly modified) document with this
id. -/
def saveMachine (machines : List Machine) (m : Machine) : List Machine :=
  machines.map (fun x => if x.id == m.id then m else x)

/-- `Record.findOne({date})` (also the lookup side of
`findOneAndUpdate`). -/
def findRecord (records : List Record) (d : String) : Option Record :=
  records.find? (fun r => r.date == d)

/-- Replace the totals of the first record with the given date. -/
def updateFirstRecord : List Record → String → TotalsMap → List Record
  | [], _, _ => []
  | r :: rs, d, t =>
      if r.date == d then { r with totals := t } :: rs
      else r :: updateFirstRecord rs d t

/-- `Record.findOneAndUpdate({date}, {date, totals}, {upsert:true, ...})`
(lines 380-384): a full-replace upsert of the totals snapshot for a
date. -/
def recordUpsert (records : List Record) (d : String) (t : TotalsMap) : List Record :=
  if records.any (fun r => r.date == d) then updateFirstRecord records d t
  else records ++ [{ date := d, totals := t }]

/-! ## Route handlers -/

/-- `GET /totals` (lines 311-325). -/
def getTotalsHandler (st : ServerState) : ServerState × HResponse :=
  (st, .json 200 (.totals (totalsAggGet (st.machines.filter (fun m => m.isSelected)))))

/-- `POST /machine/:id/toggle` (lines 259-269).  When no machine has the
id, `findById` resolves `null` and reading `null.isSelected` throws; the
catch block answers 500 with a `success:false` JSON body. -/
def toggleHandler (st : ServerState) (id : String) : ServerState × HResponse :=
  match findMachine st.machines id with
  | none => (st, .json 500 (.toggleResult false none))
  | some machine =>
      let machine2 := { machine with isSelected := !machine.isSelected }
      ({ st with machines := saveMachine st.machines machine2 },
       .json 200 (.toggleResult true (some machine2.isSelected)))

/-- The fixed ingredient list of the `/machine/new` and
`/machine/:id/save` handlers (lines 209-214 and 333-338). -/
def allIngredients : List String :=
  ["White Coffee", "Black Coffee", "Milk", "Chocolate", "French Vanilla",
   "Chai Tea", "English Toffee", "Hazelnut", "Pumpkin Spice",
   "Cardamom Tea", "Masala Tea", "Decaf", "80OZ Cup sleeves",
   "10OZ Cup Sleeves", "Water Jugs"]

/-- The ingredient array built by `POST /machine/new` (lines 217-224);
`body` is the urlencoded form, absent fields are `undefined`. -/
def machineNewIngredients (body : String → JSVal) : List Ingredient :=
  allIngredients.map (fun name =>
    let predefinedValue := body ("predefined_" ++ name)
    { name := name
      predefinedQuantity := if truthy predefinedValue then jsParseFloat predefinedValue else .num (decInt 0)
      currentQuantity := .num (decInt 0) })

/-- `POST /machine/new` (lines 205-240): `newId` stands for the fresh
document id the store assigns. -/
def machineNewHandler (st : ServerState) (newId code model location : String)
    (body : String → JSVal) : ServerState × HResponse :=
  ({ st with
      machines := st.machines ++
        [{ id := newId, code := code, model := model, location := location,
           isSelected := false, ingredients := machineNewIngredients body }] },
   .redirect "/dashboard")

/-- The ingredient array built by `POST /machine/:id/save`
(lines 340-350). -/
def machineSaveIngredients (body : String → JSVal) : List Ingredient :=
  allIngredients.map (fun name =>
    let predefinedValue := body ("predefined_" ++ name)
    let currentValue := body ("current_" ++ name)
    { name := name
      predefinedQuantity := if truthy predefinedValue then jsParseFloat predefinedValue else .num (decInt 0)
      currentQuantity := if truthy currentValue then jsParseFloat currentValue else .num (decInt 0) })

/-- `POST /machine/:id/save` (lines 327-358). -/
def machineSaveHandler (st : ServerState) (id : String) (body : String → JSVal) :
    ServerState × HResponse :=
  match findMachine st.machines id with
  | none => (st, .redirect "/dashboard")
  | some machine =>
      let machine2 := { machine with ingredients := machineSaveIngredients body }
      ({ st with machines := saveMachine st.machines machine2 }, .redirect "/dashboard")

/-- One raw ingredient row of the `POST /machine/:id/edit` body (the
urlencoded form delivers the name as a string and the quantity as an
arbitrary JS value). -/
structure RawIngredient where
  name : String
  quantity : JSVal
  deriving DecidableEq

/-- The body of `POST /machine/:id/edit`. -/
structure EditBody where
  code : String
  model : String
  location : String
  ingredients : List RawIngredient
  deriving DecidableEq

/-- The `formattedIngredients` mapping of `POST /machine/:id/edit`
(lines 283-288): trims the name and coerces the quantity with
`parseFloat(...) || 0`. -/
def formatIngredients (ingredients : List RawIngredient) : List Ingredient :=
  ingredients.map (fun ing =>
    { name := jsTrim ing.name
      quantity := jsOr (jsParseFloat ing.quantity) (.num (decInt 0)) })

/-- `POST /machine/:id/edit` (lines 273-308): creates a machine when the
id is the literal `new`, otherwise `findByIdAndUpdate` (a no-op on a
missing id). -/
def machineEditHandler (st : ServerState) (id newId : String) (b : EditBody) :
    ServerState × HResponse :=
  let formattedIngredients := formatIngredients b.ingredients
  if id = "new" then
    ({ st with
        machines := st.machines ++
          [{ id := newId, code := b.code, model := b.model, location := b.location,
             ingredients := formattedIngredients }] },
     .redirect "/dashboard")
  else
    ({ st with
        machines := st.machines.map (fun m =>
          if m.id == id then
            { m with code := b.code, model := b.model, location := b.location,
                     ingredients := formattedIngredients }
          else m) },
     .redirect "/dashboard")

/-- `POST /machine/:id/delete` (lines 242-250). -/
def machineDeleteHandler (st : ServerState) (id : String) : ServerState × HResponse :=
  ({ st with machines := st.machines.filter (fun m => m.id != id) }, .redirect "/dashboard")

/-- `POST /save-report` (lines 365-395): find the selected machines,
aggregate, upsert the Record for today, then
`Machine.updateMany({}, {$set:{isSelected:false}})`. -/
def saveReportHandler (st : ServerState) (today : String) : ServerState × HResponse :=
  let machines := st.machines.filter (fun m => m.isSelected)
  let totals := totalsAggSave machines
  let records := recordUpsert st.records today totals
  let machines2 := st.machines.map (fun m => { m with isSelected := false })
  ({ machines := machines2, records := records }, .redirect "/records")

/-! ## Routing and the auth gate

`requireAuth` (lines 63-66) redirects to `/login` when the session has no
`adminId`; it is attached per route.  Only the state-touching routes are
modelled; the remaining routes only render views. -/

/-- The modelled requests (path parameters and parsed bodies included). -/
inductive AppRequest where
  | machineNewPost (newId code model location : String) (body : String → JSVal)
  | machineEdit (id newId : String) (b : EditBody)
  | machineToggle (id : String)
  | machineSave (id : String) (body : String → JSVal)
  | machineDelete (id : String)
  | saveReport
  | totalsGet

/-- Which modelled routes are registered with the `requireAuth`
middleware in `src/server.js`.  `POST /machine/:id/edit` (line 273) is
registered without it. -/
def requiresAuth : AppRequest → Bool
  | .machineNewPost _ _ _ _ _ => true
  | .machineEdit _ _ _ => false
  | .machineToggle _ => true
  | .machineSave _ _ => true
  | .machineDelete _ => true
  | .saveReport => true
  | .totalsGet => true

/-- Request dispatch: the auth gate runs first on guarded routes
(`session` carries the session `adminId` when present), then the route
handler. -/
def dispatch (st : ServerState) (session : Option String) (today : String)
    (req : AppRequest) : ServerState × HResponse :=
  if requiresAuth req && session.isNone then (st, .redirect "/login")
  else
    match req with
    | .machineNewPost newId code model location body =>
        machineNewHandler st newId code model location body
    | .machineEdit id newId b => machineEditHandler st id newId b
    | .machineToggle id => toggleHandler st id
    | .machineSave id body => machineSaveHandler st id body
    | .machineDelete id => machineDeleteHandler st id
    | .saveReport => saveReportHandler st today
    | .totalsGet => getTotalsHandler st

/-! ## Number printing (`.toString()` on totals values) -/

/-- Decimal digits of a natural number, most significant first. -/
def natDigitsAux : ℕ → ℕ → List Char
  | _, 0 => []
  | n, fuel + 1 =>
      if n < 10 then [Char.ofNat (48 + n)]
      else natDigitsAux (n / 10) fuel ++ [Char.ofNat (48 + n % 10)]

def natToString (n : ℕ) : String :=
  String.mk (natDigitsAux n (n + 1))

/-- JavaScript `Number.prototype.toString` on an exact decimal: sign,
integer part, and, when fractional, a dot and the fraction digits (the
canonical form has no trailing zeros, exactly as JS prints decimals). -/
def decNumToString (a : DecNum) : String :=
  let sign := if a.mant < 0 then "-" else ""
  let n := a.mant.natAbs
  let ip := n / pow10Nat a.exp
  let fr := n % pow10Nat a.exp
  if a.exp = 0 then sign ++ natToString ip
  else
    let ds := natDigitsAux fr (fr + 1)
    sign ++ natToString ip ++ "." ++ String.mk (List.replicate (a.exp - ds.length) '0' ++ ds)

/-- JavaScript `x.toString()` for the values a totals mapping can hold. -/
def jsValToString : JSVal → String
  | .num q => decNumToString q
  | .nan => "NaN"
  | .str s => s
  | .undefinedV => "undefined"
  | .nullv => "null"
  | .boolean b => if b then "true" else "false"

/-! ## Report renderer, text variant (lines 447-471) -/

/-- JavaScript `String.prototype.padEnd(n, c)` : pad on the right up to
length `n`; a longer string is returned unchanged (never truncated). -/
def padEnd (s : String) (targetLength : ℕ) (padChar : Char) : String :=
  s ++ String.mk (List.replicate (targetLength - s.length) padChar)

/-- The separator literal pushed by the txt branch (lines 454, 456,
463). -/
def sepLine : String := "-----------------------------------"

/-- The column-header literal (line 455). -/
def tableHeadLine : String := "Ingredient Name         Quantity"

/-- One ingredient row (lines 459-460):
`name.padEnd(22, ' ')`, a space, `totals[name].toString().padEnd(5, ' ')`. -/
def rowLine (name : String) (v : JSVal) : String :=
  padEnd name 22 ' ' ++ " " ++ padEnd (jsValToString v) 5 ' '

/-- The lines pushed for one record by the txt branch (lines 450-465). -/
def renderRecordTxt (r : Record) : List String :=
  ["Coffee Ingredients Report", "Date: " ++ r.date, "", sepLine, tableHeadLine, sepLine]
    ++ r.totals.map (fun p => rowLine p.1 p.2)
    ++ [sepLine, ""]

/-- The whole txt report: all per-record lines joined with newlines
(line 470). -/
def renderText (records : List Record) : String :=
  String.intercalate "\n" (records.foldl (fun lines r => lines ++ renderRecordTxt r) [])

/-! ## Report renderer, PDF variant (lines 474-513)

The pdfkit document is modelled as the trace of drawing commands issued;
row y-positions are kept relative to the `tableTop` cursor captured per
record (the absolute cursor is pdfkit layout state). -/

inductive PdfCmd where
  | setFontSize (n : ℕ)
  | setFont (fontName : String)
  | textCentered (s : String)
  | moveDown (amount : DecNum)
  | textAt (s : String) (x : ℤ) (yOffsetFromTableTop : ℤ)
  | hrule
  | addPage
  deriving DecidableEq

/-- The commands issued for one record (lines 487-507): date subtitle,
table header, rule, then one row per totals key at
`tableTop + 25 + i * rowHeight` with `rowHeight = 22`, columns at
`x = 120` and `x = 340`. -/
def pdfRecordBlock (r : Record) : List PdfCmd :=
  [.setFontSize 12, .textCentered ("Date: " ++ r.date), .moveDown (decInt 1),
   .setFont "Helvetica-Bold",
   .textAt "Ingredient" 120 0, .textAt "Quantity" 340 0,
   .moveDown (mkDec 5 1),
   .setFont "Helvetica", .hrule]
    ++ (r.totals.enum.map (fun ip =>
          [PdfCmd.textAt ip.2.1 120 (25 + (ip.1 : ℤ) * 22),
           PdfCmd.textAt (jsValToString ip.2.2) 340 (25 + (ip.1 : ℤ) * 22)])).flatten

/-- The `records.forEach((r, index) => ...)` loop (lines 486-511):
`doc.addPage()` exactly when `index < records.length - 1`. -/
def renderPdfLoop (total : ℕ) : ℕ → List Record → List PdfCmd
  | _, [] => []
  | index, r :: rs =>
      pdfRecordBlock r ++ ((if index < total - 1 then [PdfCmd.addPage] else [])
        ++ renderPdfLoop total (index + 1) rs)

/-- The whole PDF command trace (title at lines 483-484, then the
per-record loop). -/
def renderPdf (records : List Record) : List PdfCmd :=
  [.setFontSize 18, .textCentered "Coffee Ingredients Report", .moveDown (mkDec 5 1)]
    ++ renderPdfLoop records.length 0 records

/-- Recognizer for the page-break command. -/
def isAddPage : PdfCmd → Bool
  | .addPage => true
  | _ => false

/-! ## Helper lemmas -/

theorem setTot_cons_of_pos (p : String × JSVal) (t : TotalsMap) (k : String) (v : JSVal)
    (h : (p.1 == k) = true) :
    setTot (p :: t) k v = (k, v) :: t.map (fun q => if q.1 == k then (k, v) else q) := by
  have hp : p.1 = k := by simpa using h
  simp [setTot, List.any_cons, h, hp]

theorem setTot_cons_of_neg (p : String × JSVal) (t : TotalsMap) (k : String) (v : JSVal)
    (h : (p.1 == k) = false) :
    setTot (p :: t) k v = p :: setTot t k v := by
  have hp : ¬ p.1 = k := by simpa using h
  by_cases h2 : t.any (fun q => q.1 == k) <;>
    simp [setTot, List.any_cons, h, h2, hp]

theorem lookupTot_setTot_self (k : String) (v : JSVal) :
    ∀ t : TotalsMap, lookupTot (setTot t k v) k = v := by
  intro t
  induction t with
  | nil => simp [setTot, lookupTot]
  | cons p ps ih =>
      by_cases hp : (p.1 == k) = true
      · rw [setTot_cons_of_pos p ps k v hp]
        simp [lookupTot]
      · rw [setTot_cons_of_neg p ps k v (by simpa using hp)]
        unfold lookupTot at ih ⊢
        rw [List.find?_cons_of_neg _ (by simpa using hp)]
        exact ih

theorem jsOr_pos {a : JSVal} (b : JSVal) (h : truthy a = true) : jsOr a b = a := by
  rw [jsOr, if_pos h]

theorem jsAddNum_nan (a : JSVal) : jsAddNum a .nan = .nan := by
  unfold jsAddNum
  cases h : jsToNumber a <;> rfl

theorem countP_updateFirstRecord (d : String) (t : TotalsMap) (e : String) :
    ∀ rs : List Record,
      (updateFirstRecord rs d t).countP (fun r => r.date == e)
        = rs.countP (fun r => r.date == e) := by
  intro rs
  induction rs with
  | nil => rfl
  | cons r rs ih =>
      by_cases hr : (r.date == d) = true <;>
        simp [updateFirstRecord, hr, List.countP_cons, ih]

theorem not_date_of_any_eq_false {rs : List Record} {d : String}
    (h : rs.any (fun r => r.date == d) = false) :
    ∀ r ∈ rs, (r.date == d) = false := by
  intro r hr
  by_contra hc
  rw [Bool.not_eq_false] at hc
  have : rs.any (fun r => r.date == d) = true := List.any_eq_true.mpr ⟨r, hr, hc⟩
  rw [h] at this
  exact Bool.false_ne_true this

theorem findRecord_append_of_none (d : String) (l2 : List Record) :
    ∀ rs : List Record, rs.any (fun r => r.date == d) = false →
      findRecord (rs ++ l2) d = findRecord l2 d := by
  intro rs
  induction rs with
  | nil => intro _; rfl
  | cons r rs ih =>
      intro h
      have hr : (r.date == d) = false := not_date_of_any_eq_false h r (by simp)
      have htl : rs.any (fun x => x.date == d) = false := by
        simpa [List.any_cons, hr] using h
      unfold findRecord at ih ⊢
      rw [List.cons_append, List.find?_cons_of_neg _ (by simpa using hr)]
      exact ih htl

theorem findRecord_updateFirstRecord (d : String) (t : TotalsMap) :
    ∀ rs : List Record, rs.any (fun r => r.date == d) = true →
      findRecord (updateFirstRecord rs d t) d = some { date := d, totals := t } := by
  intro rs
  induction rs with
  | nil => intro h; simp at h
  | cons r rs ih =>
      intro h
      by_cases hr : (r.date == d) = true
      · have hd : r.date = d := by simpa using hr
        unfold updateFirstRecord findRecord
        rw [if_pos hr, List.find?_cons_of_pos _ (by simpa using hr)]
        obtain ⟨rd, rt⟩ := r
        simp only at hd
        subst hd
        rfl
      · have htl : rs.any (fun x => x.date == d) = true := by
          simpa [List.any_cons, hr] using h
        unfold updateFirstRecord findRecord
        rw [if_neg hr, List.find?_cons_of_neg _ (by simpa using hr)]
        exact ih htl

theorem findRecord_recordUpsert (records : List Record) (d : String) (t : TotalsMap) :
    findRecord (recordUpsert records d t) d = some { date := d, totals := t } := by
  unfold recordUpsert
  by_cases h : records.any (fun r => r.date == d) = true
  · rw [if_pos h]
    exact findRecord_updateFirstRecord d t records h
  · rw [if_neg h]
    rw [findRecord_append_of_none d _ records (by simpa using h)]
    unfold findRecord
    rw [List.find?_cons_of_pos _ (by simp)]

theorem mem_updateFirstRecord_totals (d : String) (t : TotalsMap) :
    ∀ rs : List Record, rs.countP (fun r => r.date == d) ≤ 1 →
      ∀ r ∈ updateFirstRecord rs d t, r.date = d → r.totals = t := by
  intro rs
  induction rs with
  | nil => intro _ r hr; simp [updateFirstRecord] at hr
  | cons r rs ih =>
      intro hcount x hx hxd
      by_cases hr : (r.date == d) = true
      · rw [updateFirstRecord, if_pos hr] at hx
        rcases List.mem_cons.mp hx with rfl | hx2
        · rfl
        · exfalso
          have h0 : rs.countP (fun q => q.date == d) = 0 := by
            have := hcount
            rw [List.countP_cons, if_pos hr] at this
            omega
          have := List.countP_eq_zero.mp h0 x hx2
          exact this (by simpa using hxd)
      · rw [updateFirstRecord, if_neg hr] at hx
        rcases List.mem_cons.mp hx with rfl | hx2
        · exact absurd (by simpa using hxd) (by simpa using hr)
        · have htl : rs.countP (fun q => q.date == d) ≤ 1 := by
            have := hcount
            rw [List.countP_cons] at this
            omega
          exact ih htl x hx2 hxd

theorem mem_recordUpsert_totals (records : List Record) (d : String) (t : TotalsMap)
    (h : records.countP (fun r => r.date == d) ≤ 1) :
    ∀ r ∈ recordUpsert records d t, r.date = d → r.totals = t := by
  intro r hr hrd
  unfold recordUpsert at hr
  by_cases hany : records.any (fun q => q.date == d) = true
  · rw [if_pos hany] at hr
    exact mem_updateFirstRecord_totals d t records h r hr hrd
  · rw [if_neg hany] at hr
    rcases List.mem_append.mp hr with hmem | hmem
    · exact absurd (by simpa using hrd)
        (by simpa using not_date_of_any_eq_false (by simpa using hany) r hmem)
    · rcases List.mem_cons.mp hmem with rfl | hc
      · rfl
      · simp at hc

theorem countP_recordUpsert_le (records : List Record) (d : String) (t : TotalsMap)
    (e : String) (h : records.countP (fun r => r.date == e) ≤ 1) :
    (recordUpsert records d t).countP (fun r => r.date == e) ≤ 1 := by
  unfold recordUpsert
  by_cases hany : records.any (fun r => r.date == d) = true
  · rw [if_pos hany, countP_updateFirstRecord]
    exact h
  · rw [if_neg hany, List.countP_append]
    by_cases he : d = e
    · subst he
      have h0 : records.countP (fun r => r.date == d) = 0 :=
        List.countP_eq_zero.mpr (fun r hr => by
          simpa using not_date_of_any_eq_false (by simpa using hany) r hr)
      rw [h0]
      simp
    · have h1 : ([{ date := d, totals := t }] : List Record).countP (fun r => r.date == e) = 0 := by
        simp [List.countP_cons, he]
      rw [h1]
      simpa using h

/-! ## Claims about the totals aggregation (C1, C9) -/

/-- C1 (counterexample): the aggregation does not send every non-numeric
quantity to `0`.  A machine whose sole ingredient has the truthy
non-numeric quantity `"abc"` yields the total `NaN` for `Milk`, not `0`:
`"abc" || 0` keeps `"abc"` and `Number("abc")` is `NaN`. -/
theorem totals_nonnumeric_quantity_not_zero :
    totalsAggGet
        [{ id := "m1", code := "c", model := "mo", location := "lo", isSelected := true,
           ingredients := [{ name := "Milk", quantity := .str "abc" }] }]
        = [("Milk", JSVal.nan)]
    ∧ lookupTot
        (totalsAggGet
          [{ id := "m1", code := "c", model := "mo", location := "lo", isSelected := true,
             ingredients := [{ name := "Milk", quantity := .str "abc" }] }])
        "Milk"
        ≠ .num (decInt 0) := by decide

/-- C1 (amended): the aggregation of `GET /totals` and of the save-report
step is total (never throws, by construction of `totalsStep`); an entry
whose quantity is absent (`undefined`/`null`) or falsy (`NaN`, the empty
string, `false`, `0`) contributes exactly `0` to the total for its name;
an entry with numeric quantity `q` adds exactly `q` to the running total
keyed by its name; but an entry whose quantity is a truthy string that
does not parse as a number contributes `NaN`, which makes the running
total for that name `NaN`. -/
theorem totals_contribution (t : TotalsMap) (ing : Ingredient) :
    ((ing.quantity = .undefinedV ∨ ing.quantity = .nullv ∨ ing.quantity = .nan
        ∨ ing.quantity = .str "" ∨ ing.quantity = .boolean false
        ∨ ing.quantity = .num (decInt 0)) →
      totalsStep t ing
        = setTot t ing.name
            (jsAddNum (jsOr (lookupTot t ing.name) (.num (decInt 0))) (.num (decInt 0))))
    ∧ (∀ q : DecNum, ing.quantity = .num q →
      totalsStep t ing
        = setTot t ing.name
            (jsAddNum (jsOr (lookupTot t ing.name) (.num (decInt 0))) (.num q)))
    ∧ (∀ s : String, ing.quantity = .str s → s ≠ "" → jsStringToNumber s = .nan →
      totalsStep t ing = setTot t ing.name .nan
      ∧ lookupTot (totalsStep t ing) ing.name = .nan) := by
  refine ⟨?_, ?_, ?_⟩
  · rintro (h | h | h | h | h | h) <;> rw [totalsStep, h] <;> rfl
  · intro q hq
    rw [totalsStep, hq]
    by_cases hz : q.mant = 0
    · rw [DecNum.eq_zero_of_mant q hz]
      rfl
    · have ht : truthy (.num q) = true := by simpa [truthy] using hz
      rw [jsOr_pos _ ht]
      rfl
  · intro s hq hne hnan
    have htr : truthy (.str s) = true := by simpa [truthy] using hne
    have hnum : jsToNumber (JSVal.str s) = JSVal.nan := hnan
    have hstep : totalsStep t ing = setTot t ing.name .nan := by
      rw [totalsStep, hq, jsOr_pos _ htr, hnum, jsAddNum_nan]
    exact ⟨hstep, by rw [hstep]; exact lookupTot_setTot_self _ _ t⟩

/-- C1 (witness for the amended theorem): an absent (`undefined`)
quantity contributes exactly `0`. -/
theorem totals_contribution_witness :
    totalsStep [] { name := "Milk", quantity := .undefinedV }
      = setTot [] "Milk"
          (jsAddNum (jsOr (lookupTot [] "Milk") (.num (decInt 0))) (.num (decInt 0))) :=
  (totals_contribution [] { name := "Milk", quantity := .undefinedV }).1 (Or.inl rfl)

/-- C9: the totals mapping computed by the `GET /totals` handler is the
very mapping computed in step 2 of `POST /save-report` over the same
machines: the two loops are one and the same function, both handlers
apply it to the machines matching `isSelected: true`, and the record the
save stores for the day carries exactly that mapping. -/
theorem totals_get_save_refinement (st : ServerState) (today : String) :
    (∀ ms : List Machine, totalsAggGet ms = totalsAggSave ms)
    ∧ getTotalsHandler st
        = (st, .json 200 (.totals (totalsAggGet (st.machines.filter (fun m => m.isSelected)))))
    ∧ findRecord (((saveReportHandler st today).1).records) today
        = some { date := today,
                 totals := totalsAggGet (st.machines.filter (fun m => m.isSelected)) } := by
  refine ⟨fun ms => rfl, rfl, ?_⟩
  exact findRecord_recordUpsert st.records today _

/-! ## Claim C2: the save-report upsert is a full replace -/

/-- C2: starting from a record store with at most one record per date,
upserting totals `t1` for date `d` and then totals `t2` for `d` leaves
the record for `d` holding exactly `t2` (the keys of `t1` are gone, no
merge), every record dated `d` holds `t2`, and at-most-one-record-per-date
is preserved for every date. -/
theorem save_report_upsert_full_replace (records : List Record) (d : String)
    (t1 t2 : TotalsMap)
    (hu : ∀ e, records.countP (fun r => r.date == e) ≤ 1) :
    findRecord (recordUpsert (recordUpsert records d t1) d t2) d
        = some { date := d, totals := t2 }
    ∧ (∀ r ∈ recordUpsert (recordUpsert records d t1) d t2, r.date = d → r.totals = t2)
    ∧ (∀ e, (recordUpsert (recordUpsert records d t1) d t2).countP
          (fun r => r.date == e) ≤ 1) := by
  refine ⟨findRecord_recordUpsert _ _ _, ?_, fun e =>
    countP_recordUpsert_le _ _ _ _ (countP_recordUpsert_le _ _ _ _ (hu e))⟩
  exact mem_recordUpsert_totals _ _ _ (countP_recordUpsert_le _ _ _ _ (hu d))

/-- C2 (witness): saving `Milk:5` and then `Milk:0, Sugar:3` for one date
leaves exactly `Milk:0, Sugar:3`. -/
theorem save_report_upsert_full_replace_witness :
    findRecord (recordUpsert (recordUpsert [] "2024-01-05" [("Milk", JSVal.num (decInt 5))])
        "2024-01-05" [("Milk", JSVal.num (decInt 0)), ("Sugar", JSVal.num (decInt 3))])
        "2024-01-05"
      = some { date := "2024-01-05",
               totals := [("Milk", JSVal.num (decInt 0)), ("Sugar", JSVal.num (decInt 3))] } :=
  (save_report_upsert_full_replace [] "2024-01-05" [("Milk", JSVal.num (decInt 5))]
    [("Milk", JSVal.num (decInt 0)), ("Sugar", JSVal.num (decInt 3))]
    (fun e => by simp)).1

/-! ## Claim C10: toggle on a missing machine id -/

/-- C10: when no machine matches the id, the toggle handler answers
HTTP 500 with the JSON body `success:false` (the `findById` result is
`null`, reading `.isSelected` throws, and the catch block answers) and
leaves the whole server state unchanged. -/
theorem toggle_missing_machine_error (st : ServerState) (id : String)
    (h : findMachine st.machines id = none) :
    toggleHandler st id = (st, .json 500 (.toggleResult false none)) := by
  simp [toggleHandler, h]

/-- C10 (witness): toggling any id on an empty fleet answers 500 and
changes nothing. -/
theorem toggle_missing_machine_error_witness :
    toggleHandler { machines := [], records := [] } "nope"
      = ({ machines := [], records := [] },
         .json 500 (.toggleResult false none)) :=
  toggle_missing_machine_error { machines := [], records := [] } "nope" rfl

/-! ## Claim C4: the save-report reset -/

/-- C4: after `POST /save-report`, every machine in the fleet has
`isSelected = false`, and the reset step changes no other field of any
machine (id, code, model, location and the ingredient list with its
quantities are preserved machine by machine). -/
theorem save_report_resets_selection (st : ServerState) (today : String) :
    (∀ m ∈ ((saveReportHandler st today).1).machines, m.isSelected = false)
    ∧ ((saveReportHandler st today).1).machines.map
          (fun m => (m.id, m.code, m.model, m.location, m.ingredients))
        = st.machines.map (fun m => (m.id, m.code, m.model, m.location, m.ingredients)) := by
  constructor
  · intro m hm
    have hm2 : m ∈ st.machines.map (fun x => { x with isSelected := false }) := hm
    rcases List.mem_map.mp hm2 with ⟨x, _, rfl⟩
    rfl
  · show (st.machines.map (fun x => { x with isSelected := false })).map
        (fun m => (m.id, m.code, m.model, m.location, m.ingredients)) = _
    rw [List.map_map]
    rfl

/-- C4 (witness): a selected singleton fleet comes out unselected. -/
theorem save_report_resets_selection_witness :
    ({ id := "m1", code := "c", model := "mo", location := "lo", isSelected := false,
       ingredients := [] } : Machine).isSelected = false :=
  (save_report_resets_selection
      { machines := [{ id := "m1", code := "c", model := "mo", location := "lo",
                       isSelected := true, ingredients := [] }],
        records := [] }
      "2024-01-05").1
    { id := "m1", code := "c", model := "mo", location := "lo", isSelected := false,
      ingredients := [] }
    (by decide)

/-! ## Claim C7: toggling twice is the identity -/

theorem findMachine_id {ms : List Machine} {id : String} {m : Machine}
    (h : findMachine ms id = some m) : m.id = id := by
  have := List.find?_some h
  simpa using this

theorem find?_cons_eq_ite {α : Type} (p : α → Bool) (x : α) (xs : List α) :
    List.find? p (x :: xs) = if p x then some x else List.find? p xs := by
  cases h : p x <;> simp [List.find?_cons, h]

theorem findMachine_saveMachine (id : String) (m2 : Machine) (hm2 : m2.id = id) :
    ∀ ms : List Machine, (∃ m, findMachine ms id = some m) →
      findMachine (saveMachine ms m2) id = some m2 := by
  intro ms
  induction ms with
  | nil => rintro ⟨m, hm⟩; simp [findMachine] at hm
  | cons x xs ih =>
      rintro ⟨m, hm⟩
      unfold findMachine at hm ⊢
      unfold saveMachine
      rw [find?_cons_eq_ite] at hm
      rw [List.map_cons, find?_cons_eq_ite]
      by_cases hx : (x.id == id) = true
      · have hxm : (x.id == m2.id) = true := by rw [hm2]; exact hx
        have hinner : (if x.id == m2.id then m2 else x) = m2 := if_pos hxm
        rw [hinner]
        have houter : (m2.id == id) = true := by rw [hm2]; simp
        rw [if_pos houter]
      · have hxb : (x.id == id) = false := by simpa using hx
        have hxm : ¬ ((x.id == m2.id) = true) := by
          rw [hm2]
          simp [hxb]
        have hinner : (if x.id == m2.id then m2 else x) = x := if_neg hxm
        rw [if_neg hx] at hm
        rw [hinner, if_neg hx]
        exact ih ⟨m, hm⟩

theorem eq_found_of_mem_of_nodup (id : String) :
    ∀ (ms : List Machine) (m : Machine), findMachine ms id = some m →
      (ms.map (fun x => x.id)).Nodup →
      ∀ x ∈ ms, x.id = id → x = m := by
  intro ms
  induction ms with
  | nil => intro m hm; simp [findMachine] at hm
  | cons y ys ih =>
      intro m hm hnd x hx hxid
      rw [List.map_cons, List.nodup_cons] at hnd
      unfold findMachine at hm
      rw [find?_cons_eq_ite] at hm
      by_cases hy : (y.id == id) = true
      · rw [if_pos hy] at hm
        have hym : y = m := by injection hm
        subst hym
        rcases List.mem_cons.mp hx with rfl | hx2
        · rfl
        · exfalso
          apply hnd.1
          have hyid : y.id = id := by simpa using hy
          rw [hyid, ← hxid]
          exact List.mem_map_of_mem _ hx2
      · rw [if_neg hy] at hm
        rcases List.mem_cons.mp hx with rfl | hx2
        · exact absurd (by simpa using hxid) (by simpa using hy)
        · exact ih m hm hnd.2 x hx2 hxid

theorem map_eq_self_of_mem {α : Type} (f : α → α) :
    ∀ l : List α, (∀ x ∈ l, f x = x) → l.map f = l := by
  intro l
  induction l with
  | nil => intro _; rfl
  | cons x xs ih =>
      intro h
      rw [List.map_cons, h x (by simp), ih (fun y hy => h y (by simp [hy]))]

theorem saveMachine_saveMachine_cancel (ms : List Machine) (id : String) (m m1 m2 : Machine)
    (hm : findMachine ms id = some m)
    (hnd : (ms.map (fun x => x.id)).Nodup)
    (h1 : m1.id = id) (h2 : m2.id = id) (hm2 : m2 = m) :
    saveMachine (saveMachine ms m1) m2 = ms := by
  subst hm2
  show (ms.map _).map _ = ms
  rw [List.map_map]
  apply map_eq_self_of_mem
  intro x hx
  show (if (if x.id == m1.id then m1 else x).id == m2.id then m2
        else (if x.id == m1.id then m1 else x)) = x
  by_cases hxid : (x.id == id) = true
  · have hxm : x = m2 := eq_found_of_mem_of_nodup id ms m2 hm hnd x hx (by simpa using hxid)
    subst hxm
    have hc1 : (x.id == m1.id) = true := by rw [h1]; exact hxid
    have hinner : (if x.id == m1.id then m1 else x) = m1 := if_pos hc1
    rw [hinner]
    have hc2 : (m1.id == x.id) = true := by rw [h1, h2]; simp
    rw [if_pos hc2]
  · have hx1 : ¬ ((x.id == m1.id) = true) := by rw [h1]; simpa using hxid
    have hx2 : ¬ ((x.id == m2.id) = true) := by rw [h2]; simpa using hxid
    have hinner : (if x.id == m1.id then m1 else x) = x := if_neg hx1
    rw [hinner, if_neg hx2]

theorem toggleHandler_found (st : ServerState) (id : String) (m : Machine)
    (hm : findMachine st.machines id = some m) :
    toggleHandler st id
      = ({ st with machines := saveMachine st.machines { m with isSelected := !m.isSelected } },
         .json 200 (.toggleResult true (some (!m.isSelected)))) := by
  rw [toggleHandler, hm]

/-- C7: toggling an existing machine twice restores the whole persisted
server state (the `isSelected` flag returns to its original value and no
other field of any machine changes); a single toggle flips the stored
flag.  `hnd` is the uniqueness of Mongo document ids. -/
theorem toggle_twice_involutive (st : ServerState) (id : String) (m : Machine)
    (hm : findMachine st.machines id = some m)
    (hnd : (st.machines.map (fun x => x.id)).Nodup) :
    (toggleHandler ((toggleHandler st id).1) id).1 = st
    ∧ findMachine ((toggleHandler st id).1).machines id
        = some { m with isSelected := !m.isSelected } := by
  have hmid : m.id = id := findMachine_id hm
  have hfind1 : findMachine (saveMachine st.machines { m with isSelected := !m.isSelected }) id
      = some { m with isSelected := !m.isSelected } :=
    findMachine_saveMachine id { m with isSelected := !m.isSelected } hmid st.machines ⟨m, hm⟩
  have hstep1 := toggleHandler_found st id m hm
  refine ⟨?_, by rw [hstep1]; exact hfind1⟩
  have hstep2 := toggleHandler_found
    { st with machines := saveMachine st.machines { m with isSelected := !m.isSelected } }
    id { m with isSelected := !m.isSelected } hfind1
  rw [hstep1]
  dsimp only
  rw [hstep2]
  dsimp only
  have hback : saveMachine
      (saveMachine st.machines { m with isSelected := !m.isSelected })
      { m with isSelected := !(!m.isSelected) } = st.machines :=
    saveMachine_saveMachine_cancel st.machines id m
      { m with isSelected := !m.isSelected } { m with isSelected := !(!m.isSelected) }
      hm hnd hmid hmid (by rw [Bool.not_not])
  show ServerState.mk (saveMachine
      (saveMachine st.machines { m with isSelected := !m.isSelected })
      { m with isSelected := !(!m.isSelected) }) st.records = st
  rw [hback]

/-- C7 (witness): a concrete double toggle is the identity. -/
theorem toggle_twice_involutive_witness :
    (toggleHandler
        ((toggleHandler
            { machines := [{ id := "m1", code := "c", model := "mo", location := "lo",
                             isSelected := true, ingredients := [] }],
              records := [] }
            "m1").1)
        "m1").1
      = { machines := [{ id := "m1", code := "c", model := "mo", location := "lo",
                         isSelected := true, ingredients := [] }],
          records := [] } :=
  (toggle_twice_involutive
      { machines := [{ id := "m1", code := "c", model := "mo", location := "lo",
                       isSelected := true, ingredients := [] }],
        records := [] }
      "m1"
      { id := "m1", code := "c", model := "mo", location := "lo",
        isSelected := true, ingredients := [] }
      (by decide) (by decide)).1

/-! ## Claim C3: the auth gate and the edit route -/

/-- C3 (code bug): `POST /machine/:id/edit` is registered without the
`requireAuth` middleware, so an unauthenticated request (no session
admin id) is not redirected to `/login`: the state-changing edit handler
runs, overwrites the machine and answers with a redirect to
`/dashboard`. -/
theorem edit_route_bypasses_auth_gate :
    dispatch
        { machines := [{ id := "m1", code := "c", model := "mo", location := "lo",
                         isSelected := false,
                         ingredients := [{ name := "Milk", quantity := .num (decInt 5) }] }],
          records := [] }
        none "2024-01-05"
        (.machineEdit "m1" "idNew"
          { code := "c2", model := "mo", location := "lo",
            ingredients := [{ name := "Milk", quantity := .str "9" }] })
      = ({ machines := [{ id := "m1", code := "c2", model := "mo", location := "lo",
                          isSelected := false,
                          ingredients := [{ name := "Milk", quantity := .num (decInt 9) }] }],
           records := [] },
         .redirect "/dashboard")
    ∧ requiresAuth (.machineEdit "m1" "idNew"
          { code := "c2", model := "mo", location := "lo",
            ingredients := [{ name := "Milk", quantity := .str "9" }] }) = false := by
  exact ⟨by decide, rfl⟩

/-! ## Claim C8: uniqueness of ingredient names per machine -/

/-- C8 (counterexample): `POST /machine/:id/edit` stores the submitted
ingredient rows as they are; submitting the canonical name `Milk` twice
stores a machine whose ingredient list holds `Milk` twice. -/
theorem machine_edit_stores_duplicate_names :
    ∃ mach ∈ ((machineEditHandler { machines := [], records := [] } "new" "id1"
        { code := "c", model := "mo", location := "lo",
          ingredients := [{ name := "Milk", quantity := .str "1" },
                          { name := "Milk", quantity := .str "2" }] }).1).machines,
      ¬ (mach.ingredients.map (fun ing => ing.name)).Nodup := by decide

/-- C8 (amended): machines stored by `POST /machine/new` and
`POST /machine/:id/save` contain each canonical ingredient name exactly
once (their ingredient list is built over the fixed 15-name list, which
has no duplicates); the invariant is not enforced by
`POST /machine/:id/edit`, which stores whatever names the request body
carries (see the counterexample). -/
theorem new_save_ingredient_names_nodup (bodyNew bodySave : String → JSVal) :
    ((machineNewIngredients bodyNew).map (fun ing => ing.name)).Nodup
    ∧ ((machineSaveIngredients bodySave).map (fun ing => ing.name)).Nodup
    ∧ (machineNewIngredients bodyNew).map (fun ing => ing.name) = allIngredients
    ∧ (machineSaveIngredients bodySave).map (fun ing => ing.name) = allIngredients := by
  have h1 : (machineNewIngredients bodyNew).map (fun ing => ing.name) = allIngredients := by
    show (allIngredients.map _).map _ = allIngredients
    rw [List.map_map]
    exact List.map_id allIngredients
  have h2 : (machineSaveIngredients bodySave).map (fun ing => ing.name) = allIngredients := by
    show (allIngredients.map _).map _ = allIngredients
    rw [List.map_map]
    exact List.map_id allIngredients
  refine ⟨?_, ?_, h1, h2⟩
  · rw [h1]; decide
  · rw [h2]; decide

/-! ## Claim C5: rows of the text report -/

theorem padEnd_length (s : String) (n : ℕ) (c : Char) :
    (padEnd s n c).length = max s.length n := by
  unfold padEnd
  rw [String.length_append]
  show s.length + (List.replicate (n - s.length) c).length = max s.length n
  rw [List.length_replicate]
  omega

/-- C5 (counterexample): a 26-character ingredient name is not truncated
to the claimed 22-character column: the rendered row keeps the whole
name (32 characters in all), and differs from a row whose name column is
the name cut to 22 characters. -/
theorem txt_long_name_not_truncated :
    (renderRecordTxt
        { date := "2024-01-05",
          totals := [("Extra Long Ingredient Name", JSVal.num (decInt 1))] })[6]?
      = some "Extra Long Ingredient Name 1    "
    ∧ "Extra Long Ingredient Name 1    ".length = 32
    ∧ (renderRecordTxt
        { date := "2024-01-05",
          totals := [("Extra Long Ingredient Name", JSVal.num (decInt 1))] })[6]?
      ≠ some (padEnd "Extra Long Ingredient " 22 ' ' ++ " " ++ padEnd "1" 5 ' ') := by
  decide

/-- C5 (amended): each ingredient row is the name right-padded with
spaces to a minimum width of 22 characters (names longer than 22 are kept
whole, not truncated, widening the row), a single separating space, and
the quantity string right-padded to a minimum width of 5; the separator
lines are exactly 35 dashes; after the header and the rows the table
closes with a separator line and a blank line. -/
theorem txt_row_format (r : Record) (p : String × JSVal) (hp : p ∈ r.totals) :
    rowLine p.1 p.2 ∈ renderRecordTxt r
    ∧ (rowLine p.1 p.2).length
        = max p.1.length 22 + 1 + max (jsValToString p.2).length 5
    ∧ sepLine.data = List.replicate 35 (Char.ofNat 45)
    ∧ (renderRecordTxt r).drop (6 + r.totals.length) = [sepLine, ""] := by
  refine ⟨?_, ?_, by decide, ?_⟩
  · unfold renderRecordTxt
    exact List.mem_append.mpr (Or.inl (List.mem_append.mpr (Or.inr
      (List.mem_map_of_mem (fun q => rowLine q.1 q.2) hp))))
  · show (padEnd p.1 22 ' ' ++ " " ++ padEnd (jsValToString p.2) 5 ' ').length = _
    rw [String.length_append, String.length_append, padEnd_length, padEnd_length]
    rfl
  · unfold renderRecordTxt
    have hlen : (["Coffee Ingredients Report", "Date: " ++ r.date, "", sepLine,
        tableHeadLine, sepLine] ++ r.totals.map (fun q => rowLine q.1 q.2)).length
        = 6 + r.totals.length := by
      rw [List.length_append, List.length_map]
      rfl
    rw [← hlen, List.drop_left]

/-- C5 (witness for the amended theorem): the `Milk : 5` row of a
concrete record. -/
theorem txt_row_format_witness :
    rowLine "Milk" (JSVal.num (decInt 5))
      ∈ renderRecordTxt { date := "2024-01-05", totals := [("Milk", JSVal.num (decInt 5))] } :=
  (txt_row_format { date := "2024-01-05", totals := [("Milk", JSVal.num (decInt 5))] }
    ("Milk", JSVal.num (decInt 5)) (by decide)).1

/-! ## Claim C6: page breaks of the PDF report -/

theorem intercalate_singleton_list {α : Type} (sep : List α) (x : List α) :
    List.intercalate sep [x] = x := by
  simp [List.intercalate]

theorem intercalate_cons_cons_list {α : Type} (sep : List α) (x y : List α)
    (l : List (List α)) :
    List.intercalate sep (x :: y :: l) = x ++ (sep ++ List.intercalate sep (y :: l)) := by
  simp [List.intercalate]

theorem renderPdfLoop_eq_intercalate :
    ∀ (rs : List Record) (index total : ℕ), index + rs.length = total →
      renderPdfLoop total index rs
        = List.intercalate [PdfCmd.addPage] (rs.map pdfRecordBlock) := by
  intro rs
  induction rs with
  | nil => intro i t _; rfl
  | cons r rs ih =>
      intro i t h
      cases rs with
      | nil =>
          have hni : ¬ (i < t - 1) := by
            simp only [List.length_cons, List.length_nil] at h
            omega
          show pdfRecordBlock r ++ ((if i < t - 1 then [PdfCmd.addPage] else [])
              ++ renderPdfLoop t (i + 1) []) = _
          rw [if_neg hni, List.map_cons, List.map_nil, intercalate_singleton_list]
          show pdfRecordBlock r ++ ([] ++ []) = pdfRecordBlock r
          simp
      | cons r2 rs2 =>
          have hlt : i < t - 1 := by
            simp only [List.length_cons] at h
            omega
          show pdfRecordBlock r ++ ((if i < t - 1 then [PdfCmd.addPage] else [])
              ++ renderPdfLoop t (i + 1) (r2 :: rs2)) = _
          rw [if_pos hlt, ih (i + 1) t (by simp only [List.length_cons] at h ⊢; omega)]
          simp only [List.map_cons]
          rw [intercalate_cons_cons_list]

theorem addPage_count_block (r : Record) : (pdfRecordBlock r).countP isAddPage = 0 := by
  rw [List.countP_eq_zero]
  intro c hc
  unfold pdfRecordBlock at hc
  rcases List.mem_append.mp hc with h | h
  · simp only [List.mem_cons, List.not_mem_nil, or_false] at h
    rcases h with rfl | rfl | rfl | rfl | rfl | rfl | rfl | rfl | rfl <;> simp [isAddPage]
  · rcases List.mem_flatten.mp h with ⟨b, hb, hcb⟩
    rcases List.mem_map.mp hb with ⟨ip, _, rfl⟩
    simp only [List.mem_cons, List.not_mem_nil, or_false] at hcb
    rcases hcb with rfl | rfl <;> simp [isAddPage]

theorem countP_intercalate_addPage :
    ∀ blocks : List (List PdfCmd), (∀ b ∈ blocks, b.countP isAddPage = 0) →
      (List.intercalate [PdfCmd.addPage] blocks).countP isAddPage = blocks.length - 1 := by
  intro blocks
  induction blocks with
  | nil => intro _; rfl
  | cons b bs ih =>
      intro h
      cases bs with
      | nil =>
          rw [intercalate_singleton_list]
          simpa using h b (by simp)
      | cons b2 bs2 =>
          rw [intercalate_cons_cons_list, List.countP_append, List.countP_append]
          rw [h b (by simp), ih (fun x hx => h x (by simp [hx]))]
          have h1 : ([PdfCmd.addPage] : List PdfCmd).countP isAddPage = 1 := rfl
          rw [h1]
          simp only [List.length_cons]
          omega

/-- C6: the PDF renderer emits the record blocks separated by exactly one
`addPage` between consecutive records — the command trace is the
interleaving of the per-record blocks with single page breaks, so for `n`
records there are exactly `n - 1` page breaks and none after the last
record (no block contains a page break). -/
theorem pdf_page_break_between_records (records : List Record) :
    renderPdfLoop records.length 0 records
        = List.intercalate [PdfCmd.addPage] (records.map pdfRecordBlock)
    ∧ (renderPdf records).countP isAddPage = records.length - 1
    ∧ (∀ r ∈ records, (pdfRecordBlock r).countP isAddPage = 0) := by
  have hmain := renderPdfLoop_eq_intercalate records 0 records.length (by omega)
  refine ⟨hmain, ?_, fun r _ => addPage_count_block r⟩
  unfold renderPdf
  rw [List.countP_append]
  have hh : ([PdfCmd.setFontSize 18, PdfCmd.textCentered "Coffee Ingredients Report",
      PdfCmd.moveDown (mkDec 5 1)] : List PdfCmd).countP isAddPage = 0 := rfl
  rw [hh, hmain, countP_intercalate_addPage _ (fun b hb => by
    rcases List.mem_map.mp hb with ⟨r, _, rfl⟩
    exact addPage_count_block r)]
  rw [List.length_map]
  omega

/-- C6 (witness): two records produce exactly one page break. -/
theorem pdf_page_break_between_records_witness :
    (renderPdf [{ date := "d1", totals := [("Milk", JSVal.num (decInt 1))] },
                { date := "d2", totals := [] }]).countP isAddPage = 1 :=
  (pdf_page_break_between_records
    [{ date := "d1", totals := [("Milk", JSVal.num (decInt 1))] },
     { date := "d2", totals := [] }]).2.1

end Coffee24
